import Mathlib

/-!
Shallow embedding of the schema-unification and row-normalization core of
SharePointInsight (`SchemaService` in the server sources): `buildUnionSchema`,
`validateColumnTypes`, `normalizeDataRow` and the private `coerceValue`,
together with models of the JavaScript builtins they invoke
(`String(...)`, `Number(...)`, `new Date(...)`, `Array.prototype.sort`,
`String.prototype.localeCompare`, `Math.round`, `Map` grouping, `Set`
deduplication, object property access and assignment).

JavaScript runtime values are modelled by the inductive `JSValue`; machine
floats appear in the code only as `Math.round((k/n)*100)` on small rationals
and as integer epoch milliseconds, so numbers are modelled as `Int` and the
rounding as exact rational round-half-up, which agrees with the IEEE double
evaluation at every input exercised below.
-/

/-- A JavaScript runtime value.  `sym` models `Symbol` values (the one value
class on which `ToNumber` and implicit `ToString` conversions throw a
`TypeError` — though `String(...)` called as a function does not); `arr` and
`obj` model arrays and plain objects, an object being its ordered list of own
enumerable string-keyed properties. -/
inductive JSValue where
  | null : JSValue
  | undefined : JSValue
  | bool : Bool → JSValue
  | num : Int → JSValue
  | str : String → JSValue
  | sym : Nat → JSValue
  | arr : List JSValue → JSValue
  | obj : List (String × JSValue) → JSValue
deriving Repr, Inhabited

/-- A JavaScript object as used for raw records and normalized rows: an
ordered association list of properties with pairwise-distinct keys. -/
abbrev JSObject := List (String × JSValue)

/-- The test `value === null`. -/
def isNull : JSValue → Bool
  | .null => true
  | _ => false

/-- The test `value === undefined`. -/
def isUndefined : JSValue → Bool
  | .undefined => true
  | _ => false

/-- JavaScript truthiness (`Boolean(v)` / condition of `||`): `null`,
`undefined`, `false`, `0` and `""` are falsy, everything else truthy. -/
def truthy : JSValue → Bool
  | .null => false
  | .undefined => false
  | .bool b => b
  | .num n => decide (n ≠ 0)
  | .str s => decide (s ≠ "")
  | .sym _ => true
  | .arr _ => true
  | .obj _ => true

/-- The JavaScript `a || b` operator: `a` when truthy, else `b`. -/
def jsOr (a b : JSValue) : JSValue := if truthy a then a else b

/-- Property read `o[k]` on an object: the first binding of the key, or
`undefined` when the key is absent. -/
def objGet : JSObject → String → JSValue
  | [], _ => .undefined
  | (k', v) :: rest, k => if k' = k then v else objGet rest k

/-- Property write `o[k] = v`: overwrites the existing binding in place
(JavaScript keeps the original insertion position of an overwritten key),
otherwise appends the new binding at the end. -/
def objSet : JSObject → String → JSValue → JSObject
  | [], k, v => [(k, v)]
  | (k', v') :: rest, k, v =>
      if k' = k then (k, v) :: rest else (k', v') :: objSet rest k v

/-- Property read `value.k` on an arbitrary value: only plain objects carry
the string-keyed properties this service probes (on arrays and primitives the
probed names are absent, giving `undefined`). -/
def fieldGet : JSValue → String → JSValue
  | .obj fs, k => objGet fs k
  | _, _ => .undefined

/-- `typeof value === "object"` — true for plain objects, arrays and `null`. -/
def typeofIsObject : JSValue → Bool
  | .null => true
  | .arr _ => true
  | .obj _ => true
  | _ => false

/-- Modelled builtin `String.prototype.toLowerCase`, restricted to ASCII
(the only case mapping the strings of this development exercise). -/
def jsLowerChar (c : Char) : Char :=
  if 'A' ≤ c ∧ c ≤ 'Z' then Char.ofNat (c.toNat + 32) else c

/-- `s.toLowerCase()` on a string. -/
def jsToLowerString (s : String) : String := String.mk (s.data.map jsLowerChar)

mutual

/-- Modelled `ToString` abstract operation (implicit string conversion, as in
`Array.prototype.join` or `ToPrimitive`-then-string paths): throws a
`TypeError` (the `Except` error) exactly on `Symbol` values, also when one
occurs inside an array being joined; arrays stringify as their comma-joined
elements, plain objects as `"[object Object]"`.  NOTE: this is NOT
`String(value)` called as a function — see `jsStringFnE`. -/
def jsToStringE : JSValue → Except Unit String
  | .null => .ok "null"
  | .undefined => .ok "undefined"
  | .bool b => .ok (if b then "true" else "false")
  | .num n => .ok (toString n)
  | .str s => .ok s
  | .sym _ => .error ()
  | .arr elems => do pure (String.intercalate "," (← jsJoinParts elems))
  | .obj _ => .ok "[object Object]"

/-- `Array.prototype.join` element rendering: `null` and `undefined` elements
become the empty string, every other element its `String(...)` form. -/
def jsJoinParts : List JSValue → Except Unit (List String)
  | [] => .ok []
  | .null :: rest => do pure ("" :: (← jsJoinParts rest))
  | .undefined :: rest => do pure ("" :: (← jsJoinParts rest))
  | e :: rest => do pure ((← jsToStringE e) :: (← jsJoinParts rest))

end

/-- Modelled builtin `String(value)` called as a function: ECMAScript
special-cases `Symbol` arguments and returns their descriptive string
(`String(Symbol()) = "Symbol()"`, no throw; symbol descriptions are not
modelled); every other value goes through `ToString`, which can still throw
for an array containing a `Symbol` (the join path). -/
def jsStringFnE : JSValue → Except Unit String
  | .sym _ => .ok "Symbol()"
  | v => jsToStringE v

/-- Value of a decimal digit character, `none` for a non-digit. -/
def digitVal (c : Char) : Option Nat :=
  if '0' ≤ c ∧ c ≤ '9' then some (c.toNat - 48) else none

/-- Decimal reading of a non-empty all-digit character list, `none` otherwise. -/
def digitsToNat : List Char → Option Nat
  | [] => none
  | cs => cs.foldl (fun acc c => do pure ((← acc) * 10 + (← digitVal c))) (some 0)

/-- Modelled builtin: numeric reading of a string by `Number(...)`.  The
empty (or all-whitespace) string reads as `0`; an optionally signed decimal
integer literal reads as its value; anything else is NaN (`none`).
Fractional, exponent and radix-prefixed literals are not modelled — no claim
under verification depends on them. -/
def jsStringToNumber (s : String) : Option Int :=
  let t := s.trim
  if t = "" then some 0
  else match t.data with
    | '-' :: ds => (digitsToNat ds).map (fun n => -(n : Int))
    | '+' :: ds => (digitsToNat ds).map (fun n => (n : Int))
    | ds => (digitsToNat ds).map (fun n => (n : Int))

/-- Modelled builtin `Number(value)`: `none` is NaN; `Symbol` throws; arrays
and objects convert through their primitive (string) form. -/
def jsToNumberE : JSValue → Except Unit (Option Int)
  | .null => .ok (some 0)
  | .undefined => .ok none
  | .bool b => .ok (some (if b then 1 else 0))
  | .num n => .ok (some n)
  | .str s => .ok (jsStringToNumber s)
  | .sym _ => .error ()
  | v => do pure (jsStringToNumber (← jsToStringE v))

/-- Modelled builtin `new Date(value).getTime()`: `none` is an Invalid Date
(NaN time value).  A number is its epoch-millisecond time value, clipped to
the ECMAScript ±8.64e15 range; a boolean converts through its number; a
`Symbol` throws.  The date-string grammar is not modelled (strings give an
Invalid Date here) — no claim under verification depends on it. -/
def jsNewDateE : JSValue → Except Unit (Option Int)
  | .num n => .ok (if n.natAbs ≤ 8640000000000000 then some n else none)
  | .bool b => .ok (some (if b then 1 else 0))
  | .sym _ => .error ()
  | .null => .ok (some 0)
  | _ => .ok none

/-- Modelled builtin `Date.prototype.toISOString` on a valid time value,
abstracted as a tagged decimal rendering of the epoch milliseconds; no claim
under verification depends on the calendar formatting. -/
def toIsoStringModel (ms : Int) : String := "iso:" ++ toString ms

/-- The `try`-block body of `SchemaService.coerceValue`: the `switch` on
`targetType`.  An `Except.error` is a thrown JavaScript exception. -/
def coerceValueTry (value : JSValue) (targetType : String) : Except Unit JSValue :=
  match targetType with
  | "text" => do pure (.str (← jsStringFnE value))
  | "number" => do
      let num ← jsToNumberE value
      pure (match num with | some n => .num n | none => .null)
  | "currency" => do
      let currency ← jsToNumberE value
      pure (match currency with | some n => .num n | none => .null)
  | "dateTime" => do
      let date ← jsNewDateE value
      pure (match date with | some ms => .str (toIsoStringModel ms) | none => .null)
  | "boolean" =>
      match value with
      | .bool b => pure (.bool b)
      | .str s =>
          let lower := jsToLowerString s
          pure (.bool (lower = "true" ∨ lower = "yes" ∨ lower = "1"))
      | v => pure (.bool (truthy v))
  | "choice" =>
      match value with
      | .arr elems => do
          let strs ← elems.mapM (fun v => do pure (JSValue.str (← jsStringFnE v)))
          pure (.arr strs)
      | v => do pure (.arr [.str (← jsStringFnE v)])
  | "lookup" =>
      if typeofIsObject value && !(isNull value) then do
        let t := jsOr (fieldGet value "title") (fieldGet value "Title")
        let title ← if truthy t then pure t else do pure (JSValue.str (← jsStringFnE value))
        pure (.obj [("id", jsOr (fieldGet value "id") (jsOr (fieldGet value "Id") .null)),
                    ("title", title)])
      else do
        pure (.obj [("id", .null), ("title", .str (← jsStringFnE value))])
  | "person" =>
      if typeofIsObject value && !(isNull value) then do
        let d := jsOr (fieldGet value "displayName") (fieldGet value "Title")
        let displayName ← if truthy d then pure d else do pure (JSValue.str (← jsStringFnE value))
        pure (.obj [("id", jsOr (fieldGet value "id") (jsOr (fieldGet value "Id") .null)),
                    ("displayName", displayName),
                    ("email", jsOr (fieldGet value "email") (jsOr (fieldGet value "EMail") .null))])
      else do
        pure (.obj [("id", .null), ("displayName", .str (← jsStringFnE value)), ("email", .null)])
  | "taxonomy" =>
      if typeofIsObject value && !(isNull value) then do
        let l := jsOr (fieldGet value "label") (fieldGet value "Label")
        let label ← if truthy l then pure l else do pure (JSValue.str (← jsStringFnE value))
        pure (.obj [("label", label),
                    ("termGuid", jsOr (fieldGet value "termGuid") (jsOr (fieldGet value "TermGuid") .null))])
      else do
        pure (.obj [("label", .str (← jsStringFnE value)), ("termGuid", .null)])
  | "url" =>
      if typeofIsObject value && !(isNull value) then do
        let u := jsOr (fieldGet value "url") (fieldGet value "Url")
        let url ← if truthy u then pure u else do pure (JSValue.str (← jsStringFnE value))
        pure (.obj [("url", url),
                    ("description", jsOr (fieldGet value "description") (jsOr (fieldGet value "Description") .null))])
      else do
        pure (.obj [("url", .str (← jsStringFnE value)), ("description", .null)])
  | _ => pure value

/-- `SchemaService.coerceValue`: `null`/`undefined` map to `null` before the
`switch`; the `switch` runs inside `try`/`catch`, and the `catch` arm logs a
warning and returns the raw `value` unchanged. -/
def coerceValue (value : JSValue) (targetType : String) : JSValue :=
  if isNull value || isUndefined value then .null
  else
    match coerceValueTry value targetType with
    | .ok r => r
    | .error _ => value

/-! ## Schema unifier data model (`SchemaService` interfaces) -/

/-- `SourceColumn`: a `ColumnDefinition` annotated with its owning source. -/
structure SourceColumn where
  id : String
  name : String
  displayName : String
  type : String
  required : Bool
  hidden : Bool
  sourceId : String
  sourceName : String
deriving Repr, DecidableEq, Inhabited

/-- `UnionSchemaColumn`: one logical column unified across sources.
`typeConflicts` entries are `(sourceId, type)` pairs. -/
structure UnionSchemaColumn where
  id : String
  name : String
  displayName : String
  type : String
  required : Bool
  hidden : Bool
  sources : List String
  coverage : Nat
  typeConflicts : List (String × String)
deriving Repr, DecidableEq, Inhabited

/-- `CoverageMatrix`: `matrix[columnIndex][sourceIndex] = hasColumn`. -/
structure CoverageMatrix where
  columns : List String
  sources : List String
  matrix : List (List Bool)
deriving Repr, DecidableEq, Inhabited

/-- `UnionSchema`: the aggregate unification result. -/
structure UnionSchema where
  columns : List UnionSchemaColumn
  totalSources : Nat
  totalColumns : Nat
  coverageMatrix : CoverageMatrix
deriving Repr, DecidableEq, Inhabited

/-! ## Builtins used by `buildUnionSchema` -/

/-- One step of insertion-ordered deduplication (`Set` insertion). -/
def pushUnique (acc : List String) (s : String) : List String :=
  if s ∈ acc then acc else acc ++ [s]

/-- Modelled builtin `Array.from(new Set(l))`: the distinct elements of `l`
in order of first appearance. -/
def dedupFirst (l : List String) : List String := l.foldl pushUnique []

/-- One step of `Map` grouping: append `col` to the group keyed `key`,
creating the group at the end on first sight (JavaScript `Map` preserves
insertion order of keys). -/
def insertGroup : List (String × List SourceColumn) → String → SourceColumn →
    List (String × List SourceColumn)
  | [], key, col => [(key, [col])]
  | (k, cols) :: rest, key, col =>
      if k = key then (k, cols ++ [col]) :: rest
      else (k, cols) :: insertGroup rest key col

/-- The grouping key of a column: `col.name || col.displayName`
(internal name when non-empty, else display name). -/
def groupKey (col : SourceColumn) : String :=
  if col.name = "" then col.displayName else col.name

/-- The `columnGroups` map of `buildUnionSchema`: columns grouped by
`groupKey`, groups in key-first-seen order, members in input order. -/
def groupColumns (sources : List SourceColumn) : List (String × List SourceColumn) :=
  sources.foldl (fun acc col => insertGroup acc (groupKey col) col) []

/-- Modelled builtin `Math.round((k / n) * 100)` over exact rationals
(round half up): `⌊(100·k/n) + 1/2⌋ = (200·k + n) / (2·n)`.  Unused at
`n = 0` (a group exists only when some source column exists). -/
def coveragePct (k n : Nat) : Nat := (200 * k + n) / (2 * n)

/-- Primary collation key of the modelled `localeCompare`: the code points
of the ASCII-lowercased string (base letters compare case-insensitively). -/
def collPrimary (s : String) : List Nat := s.data.map (fun c => (jsLowerChar c).toNat)

/-- Secondary collation key: case ranks, lowercase (rank 0) before
uppercase (rank 1) when the primary keys tie. -/
def collSecondary (s : String) : List Nat :=
  s.data.map (fun c => if 'A' ≤ c ∧ c ≤ 'Z' then 1 else 0)

/-- Three-way lexicographic comparison of code-point lists. -/
def lexCmp : List Nat → List Nat → Ordering
  | [], [] => .eq
  | [], _ :: _ => .lt
  | _ :: _, [] => .gt
  | a :: as, b :: bs => (compare a b).then (lexCmp as bs)

/-- Combined collation comparison: primary key first, then secondary. -/
def collCmp (s t : String) : Ordering :=
  (lexCmp (collPrimary s) (collPrimary t)).then (lexCmp (collSecondary s) (collSecondary t))

/-- Modelled builtin `s.localeCompare(t)` (default locale, root collation,
restricted to the ASCII repertoire this development exercises): negative,
zero or positive as the collation orders `s` before, with or after `t`.
Base letters compare case-insensitively; a full primary tie is broken with
lowercase before uppercase. -/
def localeCompare (s t : String) : Int :=
  match collCmp s t with
  | .lt => -1
  | .eq => 0
  | .gt => 1

/-- The comparator passed to `unionColumns.sort`: coverage descending,
then `displayName.localeCompare`. -/
def cmpColumns (a b : UnionSchemaColumn) : Int :=
  if b.coverage ≠ a.coverage then (b.coverage : Int) - (a.coverage : Int)
  else localeCompare a.displayName b.displayName

/-- Insert `x` into `l` after every element that compares `≤ 0` against it:
the insertion step of a stable comparator sort. -/
def insertCmp {α : Type} (cmp : α → α → Int) (x : α) : List α → List α
  | [] => [x]
  | y :: ys => if cmp y x ≤ 0 then y :: insertCmp cmp x ys else x :: y :: ys

/-- Modelled builtin `Array.prototype.sort(cmp)`: for a consistent
comparator, ECMAScript 2019+ sort is the stable sort by `cmp`, here realised
as stable insertion sort. -/
def sortCmp {α : Type} (cmp : α → α → Int) (l : List α) : List α :=
  l.foldl (fun acc x => insertCmp cmp x acc) []

/-- The per-group body of the `columnGroups.forEach` loop of
`buildUnionSchema`: the `UnionSchemaColumn` and its coverage-matrix row.
`cols` is never empty (a group is created only around a member), so
`cols.headI` is the loop's `columns[0]`. -/
def buildGroupEntry (cols : List SourceColumn) (totalSources : Nat)
    (uniqueSourceIds : List String) : UnionSchemaColumn × List Bool :=
  let firstColumn := cols.headI
  let sourcesWithColumn := dedupFirst (cols.map (·.sourceId))
  let coverage := coveragePct sourcesWithColumn.length totalSources
  let typeConflicts :=
    (cols.filter (fun col => col.type ≠ firstColumn.type)).map
      (fun col => (col.sourceId, col.type))
  ({ id := firstColumn.id
     name := firstColumn.name
     displayName := firstColumn.displayName
     type := firstColumn.type
     required := cols.any (·.required)
     hidden := cols.all (·.hidden)
     sources := sourcesWithColumn
     coverage := coverage
     typeConflicts := typeConflicts },
   uniqueSourceIds.map (fun sourceId => decide (sourceId ∈ sourcesWithColumn)))

/-- `SchemaService.buildUnionSchema`.  Note the slip modelled faithfully from
the source: the matrix rows are accumulated in group-insertion order while
`unionColumns` is sorted afterwards, so the matrix rows are NOT re-ordered
along with the (sorted) `coverageMatrix.columns` labels. -/
def buildUnionSchema (sources : List SourceColumn) : UnionSchema :=
  let columnGroups := groupColumns sources
  let uniqueSourceIds := dedupFirst (sources.map (·.sourceId))
  let totalSources := uniqueSourceIds.length
  let entries := columnGroups.map
    (fun g => buildGroupEntry g.2 totalSources uniqueSourceIds)
  let unionColumns := sortCmp cmpColumns (entries.map Prod.fst)
  { columns := unionColumns
    totalSources := totalSources
    totalColumns := unionColumns.length
    coverageMatrix :=
      { columns := unionColumns.map (·.displayName)
        sources := uniqueSourceIds
        matrix := entries.map Prod.snd } }

/-! ## Validation (`SchemaService.validateColumnTypes`) -/

/-- The type-conflict warning text. -/
def typeConflictWarning (c : UnionSchemaColumn) : String :=
  "Column \"" ++ c.displayName ++ "\" has type conflicts: " ++
    String.intercalate ", " (c.typeConflicts.map (fun tc => tc.1 ++ ":" ++ tc.2))

/-- The low-coverage warning text. -/
def lowCoverageWarning (c : UnionSchemaColumn) : String :=
  "Column \"" ++ c.displayName ++ "\" has low coverage (" ++ toString c.coverage ++ "%)"

/-- The required-column error text. -/
def requiredColumnError (c : UnionSchemaColumn) : String :=
  "Required column \"" ++ c.displayName ++ "\" is missing from some sources (" ++
    toString c.coverage ++ "% coverage)"

/-- The per-column body of the `forEach` loop of `validateColumnTypes`:
pushes the type-conflict warning, the low-coverage warning and the
required-column error onto the accumulated `(warnings, errors)` pair. -/
def valStep (acc : List String × List String) (column : UnionSchemaColumn) :
    List String × List String :=
  let ws := if column.typeConflicts.length > 0
    then acc.1 ++ [typeConflictWarning column] else acc.1
  let ws := if column.coverage < 50
    then ws ++ [lowCoverageWarning column] else ws
  let es := if column.required ∧ column.coverage < 100
    then acc.2 ++ [requiredColumnError column] else acc.2
  (ws, es)

/-- `SchemaService.validateColumnTypes`: one pass over the columns pushing
warnings (type conflicts, coverage below 50) and errors (required with
coverage below 100); returns `(warnings, errors)`.  A pure read — the schema
is not modified. -/
def validateColumnTypes (unionSchema : UnionSchema) : List String × List String :=
  unionSchema.columns.foldl valStep ([], [])

/-! ## Row normalization (`SchemaService.normalizeDataRow`) -/

/-- The provenance argument of `normalizeDataRow`. -/
structure SourceMetadata where
  sourceId : String
  siteUrl : String
  siteTitle : String
  listTitle : String
  listId : String
deriving Repr, DecidableEq, Inhabited

/-- The initial `normalizedRow` object: the five provenance fields plus
`_item_url = row.webUrl || null`. -/
def provFields (row : JSObject) (m : SourceMetadata) : JSObject :=
  [("_source_id", .str m.sourceId),
   ("_site_url", .str m.siteUrl),
   ("_site_title", .str m.siteTitle),
   ("_list_title", .str m.listTitle),
   ("_list_id", .str m.listId),
   ("_item_url", jsOr (objGet row "webUrl") .null)]

/-- The raw-value resolution of one union column against a raw record:
`row[column.name] || row[column.displayName]`. -/
def resolveRaw (row : JSObject) (column : UnionSchemaColumn) : JSValue :=
  jsOr (objGet row column.name) (objGet row column.displayName)

/-- The per-column body of the `forEach` loop of `normalizeDataRow`:
`normalizedRow[column.displayName] = coerceValue(value, column.type)`. -/
def normStep (row : JSObject) (acc : JSObject) (column : UnionSchemaColumn) :
    JSObject :=
  objSet acc column.displayName (coerceValue (resolveRaw row column) column.type)

/-- `SchemaService.normalizeDataRow`: provenance fields, then one
`normalizedRow[column.displayName] = coerceValue(...)` assignment per union
schema column. -/
def normalizeDataRow (row : JSObject) (unionSchema : UnionSchema)
    (sourceMetadata : SourceMetadata) : JSObject :=
  unionSchema.columns.foldl (normStep row) (provFields row sourceMetadata)

/-! ## Lemmas: insertion-ordered deduplication -/

theorem mem_pushUnique {acc : List String} {s a : String} :
    a ∈ pushUnique acc s ↔ a ∈ acc ∨ a = s := by
  unfold pushUnique
  split <;> rename_i h
  · constructor
    · exact fun ha => Or.inl ha
    · rintro (ha | rfl) <;> [exact ha; exact h]
  · simp

theorem mem_foldl_pushUnique (l : List String) :
    ∀ (acc : List String) (a : String),
      a ∈ l.foldl pushUnique acc ↔ a ∈ acc ∨ a ∈ l := by
  induction l with
  | nil => simp
  | cons x xs ih =>
      intro acc a
      rw [List.foldl_cons, ih, mem_pushUnique]
      simp only [List.mem_cons]
      tauto

theorem mem_dedupFirst {l : List String} {a : String} :
    a ∈ dedupFirst l ↔ a ∈ l := by
  rw [dedupFirst, mem_foldl_pushUnique]
  simp

theorem nodup_pushUnique {acc : List String} (h : acc.Nodup) (s : String) :
    (pushUnique acc s).Nodup := by
  unfold pushUnique
  split <;> rename_i hs
  · exact h
  · exact List.Nodup.append h (List.nodup_singleton s) (by simpa using hs)

theorem nodup_foldl_pushUnique (l : List String) :
    ∀ acc : List String, acc.Nodup → (l.foldl pushUnique acc).Nodup := by
  induction l with
  | nil => exact fun _ h => h
  | cons x xs ih =>
      intro acc hacc
      rw [List.foldl_cons]
      exact ih _ (nodup_pushUnique hacc x)

theorem nodup_dedupFirst (l : List String) : (dedupFirst l).Nodup :=
  nodup_foldl_pushUnique l [] List.nodup_nil

theorem foldl_pushUnique_absorbed (l : List String) :
    ∀ acc : List String, (∀ x ∈ l, x ∈ acc) → l.foldl pushUnique acc = acc := by
  induction l with
  | nil => intro acc _; rfl
  | cons x xs ih =>
      intro acc h
      rw [List.foldl_cons]
      have hx : x ∈ acc := h x (by simp)
      rw [show pushUnique acc x = acc from by simp [pushUnique, hx]]
      exact ih acc (fun y hy => h y (by simp [hy]))

theorem foldl_pushUnique_fresh (l : List String) :
    ∀ acc : List String, (∀ x ∈ l, x ∉ acc) → l.Nodup →
      l.foldl pushUnique acc = acc ++ l := by
  induction l with
  | nil => intro acc _ _; simp
  | cons x xs ih =>
      intro acc h hnd
      rw [List.foldl_cons]
      have hx : x ∉ acc := h x (by simp)
      rw [show pushUnique acc x = acc ++ [x] from by simp [pushUnique, hx]]
      rw [ih (acc ++ [x])
        (fun y hy => by
          simp only [List.mem_append, List.mem_singleton, not_or]
          exact ⟨h y (by simp [hy]), fun hxy => (List.nodup_cons.mp hnd).1 (hxy ▸ hy)⟩)
        (List.nodup_cons.mp hnd).2]
      simp

theorem dedupFirst_of_nodup {l : List String} (h : l.Nodup) : dedupFirst l = l := by
  rw [dedupFirst, foldl_pushUnique_fresh l [] (by simp) h]
  simp

theorem dedupFirst_append_absorbed {l₁ l₂ : List String}
    (h : ∀ x ∈ l₂, x ∈ l₁) : dedupFirst (l₁ ++ l₂) = dedupFirst l₁ := by
  rw [dedupFirst, List.foldl_append]
  exact foldl_pushUnique_absorbed l₂ _
    (fun x hx => mem_dedupFirst.mpr (h x hx))

/-! ## Lemmas: `Map` grouping -/

/-- The group invariant: every group is non-empty and all its members
satisfy `P`. -/
def GroupsInv (P : SourceColumn → Prop) (gs : List (String × List SourceColumn)) : Prop :=
  ∀ g ∈ gs, g.2 ≠ [] ∧ ∀ c ∈ g.2, P c

theorem insertGroup_inv {P : SourceColumn → Prop}
    {acc : List (String × List SourceColumn)} {key : String} {col : SourceColumn}
    (hacc : GroupsInv P acc) (hcol : P col) :
    GroupsInv P (insertGroup acc key col) := by
  induction acc with
  | nil =>
      intro g hg
      simp only [insertGroup, List.mem_singleton] at hg
      subst hg
      exact ⟨by simp, by simpa using hcol⟩
  | cons p rest ih =>
      intro g hg
      obtain ⟨k, cols⟩ := p
      simp only [insertGroup] at hg
      split at hg
      · rcases List.mem_cons.mp hg with rfl | hmem
        · refine ⟨by simp, ?_⟩
          intro c hc
          rcases List.mem_append.mp hc with hc | hc
          · exact (hacc (k, cols) (List.mem_cons_self _ _)).2 c hc
          · obtain rfl := List.mem_singleton.mp hc
            exact hcol
        · exact hacc _ (List.mem_cons_of_mem _ hmem)
      · rcases List.mem_cons.mp hg with rfl | hmem
        · exact hacc _ (List.mem_cons_self _ _)
        · exact ih (fun g' hg' => hacc g' (List.mem_cons_of_mem _ hg')) g hmem

theorem foldl_insertGroup_inv {P : SourceColumn → Prop} (l : List SourceColumn) :
    ∀ acc, GroupsInv P acc → (∀ c ∈ l, P c) →
      GroupsInv P (l.foldl (fun a c => insertGroup a (groupKey c) c) acc) := by
  induction l with
  | nil => intro acc hacc _; simpa using hacc
  | cons x xs ih =>
      intro acc hacc hl
      rw [List.foldl_cons]
      exact ih _ (insertGroup_inv hacc (hl x (by simp)))
        (fun c hc => hl c (by simp [hc]))

theorem groupColumns_inv (sources : List SourceColumn) :
    GroupsInv (· ∈ sources) (groupColumns sources) :=
  foldl_insertGroup_inv sources [] (by intro g hg; simp at hg) (fun c hc => hc)

/-! ## Lemmas: object property update -/

theorem objGet_objSet_self (o : JSObject) (k : String) (v : JSValue) :
    objGet (objSet o k v) k = v := by
  induction o with
  | nil => simp [objSet, objGet]
  | cons p rest ih =>
      obtain ⟨k', v'⟩ := p
      simp only [objSet]
      split <;> rename_i h
      · simp [objGet]
      · simp [objGet, h, ih]

theorem objGet_objSet_ne (o : JSObject) {k k' : String} (v : JSValue)
    (h : k' ≠ k) : objGet (objSet o k v) k' = objGet o k' := by
  induction o with
  | nil => simp [objSet, objGet, Ne.symm h]
  | cons p rest ih =>
      obtain ⟨k₀, v₀⟩ := p
      simp only [objSet]
      split <;> rename_i h₀
      · subst h₀
        simp [objGet, Ne.symm h]
      · by_cases hk : k₀ = k'
        · subst hk
          simp [objGet]
        · simp [objGet, hk, ih]

/-! ## Lemmas: stable comparator sort -/

theorem insertCmp_perm {α : Type} (cmp : α → α → Int) (x : α) (l : List α) :
    List.Perm (insertCmp cmp x l) (x :: l) := by
  induction l with
  | nil => exact List.Perm.refl _
  | cons y ys ih =>
      simp only [insertCmp]
      split
      · exact ((ih.cons y).trans (List.Perm.swap x y ys))
      · exact List.Perm.refl _

theorem foldl_insertCmp_perm {α : Type} (cmp : α → α → Int) (l : List α) :
    ∀ acc : List α,
      List.Perm (l.foldl (fun a x => insertCmp cmp x a) acc) (acc ++ l) := by
  induction l with
  | nil => intro acc; simp
  | cons x xs ih =>
      intro acc
      rw [List.foldl_cons]
      refine (ih (insertCmp cmp x acc)).trans ?_
      refine (List.Perm.append_right xs (insertCmp_perm cmp x acc)).trans ?_
      exact List.perm_middle.symm

theorem sortCmp_perm {α : Type} (cmp : α → α → Int) (l : List α) :
    List.Perm (sortCmp cmp l) l := by
  simpa using foldl_insertCmp_perm cmp l []

theorem mem_sortCmp {α : Type} {cmp : α → α → Int} {l : List α} {a : α} :
    a ∈ sortCmp cmp l ↔ a ∈ l :=
  (sortCmp_perm cmp l).mem_iff

theorem sortCmp_length {α : Type} (cmp : α → α → Int) (l : List α) :
    (sortCmp cmp l).length = l.length :=
  (sortCmp_perm cmp l).length_eq

theorem insertCmp_pairwise {α : Type} {cmp : α → α → Int}
    (htotal : ∀ a b, cmp a b ≤ 0 ∨ cmp b a ≤ 0)
    (htrans : ∀ a b c, cmp a b ≤ 0 → cmp b c ≤ 0 → cmp a c ≤ 0)
    {x : α} {l : List α} (hl : l.Pairwise (fun a b => cmp a b ≤ 0)) :
    (insertCmp cmp x l).Pairwise (fun a b => cmp a b ≤ 0) := by
  induction l with
  | nil => simp [insertCmp]
  | cons y ys ih =>
      obtain ⟨hy, hys⟩ := List.pairwise_cons.mp hl
      simp only [insertCmp]
      split <;> rename_i hcmp
      · refine List.pairwise_cons.mpr ⟨?_, ih hys⟩
        intro z hz
        rcases List.mem_cons.mp ((insertCmp_perm cmp x ys).mem_iff.mp hz) with rfl | hz'
        · exact hcmp
        · exact hy z hz'
      · have hxy : cmp x y ≤ 0 := by
          rcases htotal x y with h | h
          · exact h
          · exact absurd h hcmp
        refine List.pairwise_cons.mpr ⟨?_, hl⟩
        intro z hz
        rcases List.mem_cons.mp hz with rfl | hz'
        · exact hxy
        · exact htrans x y z hxy (hy z hz')

theorem sortCmp_pairwise {α : Type} {cmp : α → α → Int}
    (htotal : ∀ a b, cmp a b ≤ 0 ∨ cmp b a ≤ 0)
    (htrans : ∀ a b c, cmp a b ≤ 0 → cmp b c ≤ 0 → cmp a c ≤ 0)
    (l : List α) :
    (sortCmp cmp l).Pairwise (fun a b => cmp a b ≤ 0) := by
  suffices h : ∀ acc : List α, acc.Pairwise (fun a b => cmp a b ≤ 0) →
      (l.foldl (fun a x => insertCmp cmp x a) acc).Pairwise (fun a b => cmp a b ≤ 0) by
    exact h [] List.Pairwise.nil
  induction l with
  | nil => intro acc hacc; simpa using hacc
  | cons x xs ih =>
      intro acc hacc
      rw [List.foldl_cons]
      exact ih _ (insertCmp_pairwise htotal htrans hacc)

/-! ## Lemmas: the modelled collation -/

theorem lexCmp_eq_iff (a : List Nat) : ∀ b, lexCmp a b = .eq ↔ a = b := by
  induction a with
  | nil => intro b; cases b <;> simp [lexCmp]
  | cons x xs ih =>
      intro b
      cases b with
      | nil => simp [lexCmp]
      | cons y ys =>
          simp only [lexCmp]
          cases h : compare x y with
          | lt =>
              have hxy := Nat.compare_eq_lt.mp h
              apply iff_of_false (by simp [Ordering.then])
              simp only [List.cons.injEq, not_and]
              intro he
              omega
          | gt =>
              have hxy := Nat.compare_eq_gt.mp h
              apply iff_of_false (by simp [Ordering.then])
              simp only [List.cons.injEq, not_and]
              intro he
              omega
          | eq =>
              obtain rfl := Nat.compare_eq_eq.mp h
              simp only [Ordering.then]
              rw [ih ys]
              simp

theorem lexCmp_swap (a : List Nat) : ∀ b, lexCmp b a = (lexCmp a b).swap := by
  induction a with
  | nil => intro b; cases b <;> simp [lexCmp, Ordering.swap]
  | cons x xs ih =>
      intro b
      cases b with
      | nil => simp [lexCmp, Ordering.swap]
      | cons y ys =>
          simp only [lexCmp]
          cases h : compare x y with
          | lt =>
              have hyx : compare y x = .gt := by
                have := Nat.compare_eq_lt.mp h
                exact Nat.compare_eq_gt.mpr this
              rw [hyx]
              simp [Ordering.then, Ordering.swap]
          | gt =>
              have hyx : compare y x = .lt := by
                have := Nat.compare_eq_gt.mp h
                exact Nat.compare_eq_lt.mpr this
              rw [hyx]
              simp [Ordering.then, Ordering.swap]
          | eq =>
              obtain rfl := Nat.compare_eq_eq.mp h
              rw [show compare x x = Ordering.eq from Nat.compare_eq_eq.mpr rfl]
              simp only [Ordering.then]
              exact ih ys

theorem lexCmp_lt_trans (a : List Nat) : ∀ b c, lexCmp a b = .lt → lexCmp b c = .lt →
    lexCmp a c = .lt := by
  induction a with
  | nil =>
      intro b c hab hbc
      cases b with
      | nil => simp [lexCmp] at hab
      | cons y ys =>
          cases c with
          | nil => simp [lexCmp] at hbc
          | cons z zs => simp [lexCmp]
  | cons x xs ih =>
      intro b c hab hbc
      cases b with
      | nil => simp [lexCmp] at hab
      | cons y ys =>
          cases c with
          | nil => simp [lexCmp] at hbc
          | cons z zs =>
              simp only [lexCmp] at hab hbc ⊢
              cases hxy : compare x y with
              | gt => rw [hxy] at hab; simp [Ordering.then] at hab
              | lt =>
                  have h1 := Nat.compare_eq_lt.mp hxy
                  cases hyz : compare y z with
                  | gt => rw [hyz] at hbc; simp [Ordering.then] at hbc
                  | lt =>
                      have h2 := Nat.compare_eq_lt.mp hyz
                      rw [show compare x z = Ordering.lt from Nat.compare_eq_lt.mpr (by omega)]
                      simp [Ordering.then]
                  | eq =>
                      obtain rfl := Nat.compare_eq_eq.mp hyz
                      rw [hxy]
                      simp [Ordering.then]
              | eq =>
                  obtain rfl := Nat.compare_eq_eq.mp hxy
                  rw [hxy] at hab
                  simp only [Ordering.then] at hab
                  cases hyz : compare x z with
                  | gt => rw [hyz] at hbc; simp [Ordering.then] at hbc
                  | lt => simp [Ordering.then]
                  | eq =>
                      obtain rfl := Nat.compare_eq_eq.mp hyz
                      rw [hyz] at hbc
                      simp only [Ordering.then] at hbc ⊢
                      exact ih ys zs hab hbc

theorem collCmp_swap (s t : String) : collCmp t s = (collCmp s t).swap := by
  unfold collCmp
  rw [lexCmp_swap (collPrimary s) (collPrimary t),
      lexCmp_swap (collSecondary s) (collSecondary t)]
  cases lexCmp (collPrimary s) (collPrimary t) <;>
    cases lexCmp (collSecondary s) (collSecondary t) <;>
      simp [Ordering.then, Ordering.swap]

theorem collCmp_eq_iff (s t : String) :
    collCmp s t = .eq ↔
      collPrimary s = collPrimary t ∧ collSecondary s = collSecondary t := by
  unfold collCmp
  cases hp : lexCmp (collPrimary s) (collPrimary t) with
  | lt =>
      apply iff_of_false (by simp [Ordering.then])
      intro h
      rw [(lexCmp_eq_iff _ _).mpr h.1] at hp
      cases hp
  | gt =>
      apply iff_of_false (by simp [Ordering.then])
      intro h
      rw [(lexCmp_eq_iff _ _).mpr h.1] at hp
      cases hp
  | eq =>
      simp only [Ordering.then]
      rw [lexCmp_eq_iff]
      have := (lexCmp_eq_iff (collPrimary s) (collPrimary t)).mp hp
      simp [this]

theorem collCmp_lt_trans {a b c : String}
    (hab : collCmp a b = .lt) (hbc : collCmp b c = .lt) : collCmp a c = .lt := by
  unfold collCmp at hab hbc ⊢
  cases hp1 : lexCmp (collPrimary a) (collPrimary b) with
  | gt => rw [hp1] at hab; simp [Ordering.then] at hab
  | lt =>
      cases hp2 : lexCmp (collPrimary b) (collPrimary c) with
      | gt => rw [hp2] at hbc; simp [Ordering.then] at hbc
      | lt =>
          rw [lexCmp_lt_trans _ _ _ hp1 hp2]
          simp [Ordering.then]
      | eq =>
          obtain hpe := (lexCmp_eq_iff _ _).mp hp2
          rw [← hpe, hp1]
          simp [Ordering.then]
  | eq =>
      obtain hpe := (lexCmp_eq_iff _ _).mp hp1
      rw [hp1] at hab
      simp only [Ordering.then] at hab
      cases hp2 : lexCmp (collPrimary b) (collPrimary c) with
      | gt => rw [hp2] at hbc; simp [Ordering.then] at hbc
      | lt =>
          rw [hpe, hp2]
          simp [Ordering.then]
      | eq =>
          obtain hpe2 := (lexCmp_eq_iff _ _).mp hp2
          rw [hp2] at hbc
          simp only [Ordering.then] at hbc
          rw [hpe, hpe2, (lexCmp_eq_iff _ _).mpr rfl]
          simp only [Ordering.then]
          have hs1 := hab
          have hs2 := hbc
          exact lexCmp_lt_trans _ _ _ hs1 hs2

theorem localeCompare_le_iff (s t : String) :
    localeCompare s t ≤ 0 ↔ collCmp s t ≠ .gt := by
  unfold localeCompare
  cases collCmp s t <;> simp

theorem localeCompare_total (s t : String) :
    localeCompare s t ≤ 0 ∨ localeCompare t s ≤ 0 := by
  rw [localeCompare_le_iff s t, localeCompare_le_iff t s]
  cases h : collCmp s t with
  | lt => left; simp [h]
  | eq => left; simp [h]
  | gt =>
      right
      rw [collCmp_swap s t, h]
      simp [Ordering.swap]

theorem localeCompare_le_trans {a b c : String}
    (hab : localeCompare a b ≤ 0) (hbc : localeCompare b c ≤ 0) :
    localeCompare a c ≤ 0 := by
  rw [localeCompare_le_iff] at hab hbc ⊢
  cases h1 : collCmp a b with
  | gt => exact absurd h1 hab
  | lt =>
      cases h2 : collCmp b c with
      | gt => exact absurd h2 hbc
      | lt => simp [collCmp_lt_trans h1 h2]
      | eq =>
          obtain ⟨hp, hs⟩ := (collCmp_eq_iff b c).mp h2
          intro h3
          rw [show collCmp a c = collCmp a b from by unfold collCmp; rw [hp, hs]] at h3
          rw [h1] at h3
          cases h3
  | eq =>
      obtain ⟨hp, hs⟩ := (collCmp_eq_iff a b).mp h1
      intro h3
      rw [show collCmp a c = collCmp b c from by unfold collCmp; rw [hp, hs]] at h3
      exact hbc h3

theorem cmpColumns_total (a b : UnionSchemaColumn) :
    cmpColumns a b ≤ 0 ∨ cmpColumns b a ≤ 0 := by
  unfold cmpColumns
  by_cases h : a.coverage = b.coverage
  · rw [if_neg (by omega), if_neg (by omega)]
    exact localeCompare_total a.displayName b.displayName
  · rw [if_pos (by omega), if_pos (by omega)]
    omega

theorem cmpColumns_trans (a b c : UnionSchemaColumn)
    (hab : cmpColumns a b ≤ 0) (hbc : cmpColumns b c ≤ 0) : cmpColumns a c ≤ 0 := by
  unfold cmpColumns at hab hbc ⊢
  by_cases h1 : a.coverage = b.coverage <;> by_cases h2 : b.coverage = c.coverage
  · rw [if_neg (by omega)] at hab
    rw [if_neg (by omega)] at hbc
    rw [if_neg (by omega)]
    exact localeCompare_le_trans hab hbc
  · rw [if_pos (by omega)] at hbc
    rw [if_pos (by omega)]
    omega
  · rw [if_pos (by omega)] at hab
    rw [if_pos (by omega)]
    omega
  · rw [if_pos (by omega)] at hab
    rw [if_pos (by omega)] at hbc
    rw [if_pos (by omega)]
    omega

/-! ## Lemmas: the rounded coverage percentage -/

theorem coveragePct_le_100 {k n : Nat} (hn : 0 < n) (hk : k ≤ n) :
    coveragePct k n ≤ 100 := by
  unfold coveragePct
  calc (200 * k + n) / (2 * n) ≤ (n + (2 * n) * 100) / (2 * n) :=
        Nat.div_le_div_right (by omega)
    _ = n / (2 * n) + 100 := Nat.add_mul_div_left n 100 (by omega)
    _ = 100 := by rw [Nat.div_eq_of_lt (by omega)]

theorem coveragePct_eq_100_iff {k n : Nat} (hn : 0 < n) (hk : k ≤ n) :
    coveragePct k n = 100 ↔ 199 * n ≤ 200 * k := by
  have hle := coveragePct_le_100 hn hk
  unfold coveragePct at hle ⊢
  constructor
  · intro h
    have h100 : 100 ≤ (200 * k + n) / (2 * n) := h.ge
    have := (Nat.le_div_iff_mul_le (by omega : 0 < 2 * n)).mp h100
    omega
  · intro h
    have h100 : 100 ≤ (200 * k + n) / (2 * n) :=
      (Nat.le_div_iff_mul_le (by omega : 0 < 2 * n)).mpr (by omega)
    omega

/-! ## Lemmas: the normalized row object -/

theorem foldl_objSet_get_of_notmem (f : UnionSchemaColumn → JSValue)
    (cols : List UnionSchemaColumn) :
    ∀ (acc : JSObject) (d : String), d ∉ cols.map (·.displayName) →
      objGet (cols.foldl (fun a c => objSet a c.displayName (f c)) acc) d =
        objGet acc d := by
  induction cols with
  | nil => intro acc d _; rfl
  | cons c cs ih =>
      intro acc d hd
      simp only [List.map_cons, List.mem_cons, not_or] at hd
      rw [List.foldl_cons, ih _ d hd.2, objGet_objSet_ne _ _ hd.1]

theorem foldl_objSet_get_last (f : UnionSchemaColumn → JSValue)
    (l₁ l₂ : List UnionSchemaColumn) (c : UnionSchemaColumn)
    (h : c.displayName ∉ l₂.map (·.displayName)) (acc : JSObject) :
    objGet ((l₁ ++ c :: l₂).foldl (fun a x => objSet a x.displayName (f x)) acc)
      c.displayName = f c := by
  rw [List.foldl_append, List.foldl_cons,
      foldl_objSet_get_of_notmem f l₂ _ _ h, objGet_objSet_self]

/-! ## Lemmas: projections of `buildUnionSchema` -/

theorem buildUnionSchema_columns (sources : List SourceColumn) :
    (buildUnionSchema sources).columns =
      sortCmp cmpColumns ((groupColumns sources).map (fun g =>
        (buildGroupEntry g.2 (dedupFirst (sources.map (·.sourceId))).length
          (dedupFirst (sources.map (·.sourceId)))).1)) := by
  simp [buildUnionSchema, List.map_map]
  rfl

theorem buildUnionSchema_matrix (sources : List SourceColumn) :
    (buildUnionSchema sources).coverageMatrix.matrix =
      (groupColumns sources).map (fun g =>
        (buildGroupEntry g.2 (dedupFirst (sources.map (·.sourceId))).length
          (dedupFirst (sources.map (·.sourceId)))).2) := by
  simp [buildUnionSchema, List.map_map]

theorem buildUnionSchema_totalSources (sources : List SourceColumn) :
    (buildUnionSchema sources).totalSources =
      (dedupFirst (sources.map (·.sourceId))).length := rfl

theorem buildUnionSchema_totalColumns (sources : List SourceColumn) :
    (buildUnionSchema sources).totalColumns =
      (buildUnionSchema sources).columns.length := rfl

theorem buildUnionSchema_matrixSources (sources : List SourceColumn) :
    (buildUnionSchema sources).coverageMatrix.sources =
      dedupFirst (sources.map (·.sourceId)) := rfl

theorem buildGroupEntry_fst_coverage (cols : List SourceColumn) (n : Nat)
    (uids : List String) :
    (buildGroupEntry cols n uids).1.coverage =
      coveragePct (dedupFirst (cols.map (·.sourceId))).length n := rfl

theorem buildGroupEntry_fst_sources (cols : List SourceColumn) (n : Nat)
    (uids : List String) :
    (buildGroupEntry cols n uids).1.sources =
      dedupFirst (cols.map (·.sourceId)) := rfl

theorem buildGroupEntry_snd (cols : List SourceColumn) (n : Nat)
    (uids : List String) :
    (buildGroupEntry cols n uids).2 =
      uids.map (fun sourceId =>
        decide (sourceId ∈ dedupFirst (cols.map (·.sourceId)))) := rfl

theorem mem_buildUnionSchema_columns {sources : List SourceColumn}
    {c : UnionSchemaColumn} :
    c ∈ (buildUnionSchema sources).columns ↔
      ∃ g ∈ groupColumns sources,
        (buildGroupEntry g.2 (dedupFirst (sources.map (·.sourceId))).length
          (dedupFirst (sources.map (·.sourceId)))).1 = c := by
  rw [buildUnionSchema_columns, mem_sortCmp, List.mem_map]

/-! ## Lemmas: grouping of blocks that share one key -/

theorem insertGroup_fresh (acc : List (String × List SourceColumn))
    (key : String) (col : SourceColumn) (h : ∀ g ∈ acc, g.1 ≠ key) :
    insertGroup acc key col = acc ++ [(key, [col])] := by
  induction acc with
  | nil => rfl
  | cons p rest ih =>
      obtain ⟨k, cl⟩ := p
      have hk : k ≠ key := h (k, cl) (List.mem_cons_self _ _)
      simp only [insertGroup, if_neg hk]
      rw [ih (fun g hg => h g (List.mem_cons_of_mem _ hg))]
      simp

theorem insertGroup_append_last (acc : List (String × List SourceColumn))
    (key : String) (cs : List SourceColumn) (col : SourceColumn)
    (h : ∀ g ∈ acc, g.1 ≠ key) :
    insertGroup (acc ++ [(key, cs)]) key col = acc ++ [(key, cs ++ [col])] := by
  induction acc with
  | nil => simp [insertGroup]
  | cons p rest ih =>
      obtain ⟨k, cl⟩ := p
      have hk : k ≠ key := h (k, cl) (List.mem_cons_self _ _)
      simp only [List.cons_append, insertGroup, if_neg hk]
      exact congrArg (fun l => (k, cl) :: l)
        (ih (fun g hg => h g (List.mem_cons_of_mem _ hg)))

theorem foldl_insertGroup_into_last (key : String) (cols : List SourceColumn)
    (hk : ∀ c ∈ cols, groupKey c = key) :
    ∀ (acc : List (String × List SourceColumn)) (cs : List SourceColumn),
      (∀ g ∈ acc, g.1 ≠ key) →
      cols.foldl (fun a c => insertGroup a (groupKey c) c) (acc ++ [(key, cs)]) =
        acc ++ [(key, cs ++ cols)] := by
  induction cols with
  | nil => intro acc cs _; simp
  | cons c rest ih =>
      intro acc cs hacc
      rw [List.foldl_cons, hk c (List.mem_cons_self _ _),
          insertGroup_append_last acc key cs c hacc,
          ih (fun x hx => hk x (List.mem_cons_of_mem _ hx)) acc (cs ++ [c]) hacc]
      simp

theorem foldl_insertGroup_fresh_block (key : String) (cols : List SourceColumn)
    (hk : ∀ c ∈ cols, groupKey c = key) (hne : cols ≠ [])
    (acc : List (String × List SourceColumn)) (hacc : ∀ g ∈ acc, g.1 ≠ key) :
    cols.foldl (fun a c => insertGroup a (groupKey c) c) acc =
      acc ++ [(key, cols)] := by
  cases cols with
  | nil => exact absurd rfl hne
  | cons c rest =>
      rw [List.foldl_cons, hk c (List.mem_cons_self _ _),
          insertGroup_fresh acc key c hacc,
          foldl_insertGroup_into_last key rest
            (fun x hx => hk x (List.mem_cons_of_mem _ hx)) acc [c] hacc]
      rfl

/-! ## Concrete inputs for the claims -/

/-- A text-typed source column whose internal and display names are both
`nm`, contributed by source `sid`. -/
def mkCol (nm sid : String) : SourceColumn :=
  { id := nm, name := nm, displayName := nm, type := "text",
    required := false, hidden := false, sourceId := sid, sourceName := sid }

/-- Input for C1: column "B" only in source s1, column "A" in both sources,
so the sorted column order ("A" first, by coverage) differs from the
group-insertion order ("B" first). -/
def ex1 : List SourceColumn := [mkCol "B" "s1", mkCol "A" "s1", mkCol "A" "s2"]

/-- Input for C6: two columns of equal coverage whose display names "a" and
"B" order differently under `localeCompare` ("a" first) and under
code-point comparison ("B" first). -/
def ex6 : List SourceColumn := [mkCol "a" "s1", mkCol "B" "s1"]

/-- Input for C9 (the required-but-partial scenario of the spec): "Owner"
required in source A, absent from source B. -/
def c9input : List SourceColumn :=
  [{ id := "Owner", name := "Owner", displayName := "Owner", type := "text",
     required := true, hidden := false, sourceId := "A", sourceName := "A" },
   { id := "Title", name := "Title", displayName := "Title", type := "text",
     required := false, hidden := false, sourceId := "B", sourceName := "B" }]

/-- Input for C4: one number-typed column with internal name "n" and display
name "D". -/
def c4cols : List SourceColumn :=
  [{ id := "1", name := "n", displayName := "D", type := "number",
     required := false, hidden := false, sourceId := "s", sourceName := "S" }]

/-- Provenance metadata used by the concrete normalization runs. -/
def exMeta : SourceMetadata :=
  { sourceId := "s", siteUrl := "u", siteTitle := "t", listTitle := "l",
    listId := "i" }

/-- The `i`-th source identifier of the 200-source input: `i` repetitions of
`'a'` (injectivity is immediate from the length). -/
def mkId (i : Nat) : String := String.mk (List.replicate i 'a')

/-- Column "B", contributed by all 200 sources. -/
def colsB : List SourceColumn := (List.range 200).map (fun i => mkCol "B" (mkId i))

/-- Column "A", contributed by the first 199 of the 200 sources. -/
def colsA : List SourceColumn := (List.range 199).map (fun i => mkCol "A" (mkId i))

/-- Input for C3: 200 distinct sources; column "A" is contributed by 199 of
them, yet `Math.round((199/200)*100) = Math.round(99.5) = 100`. -/
def c3big : List SourceColumn := colsB ++ colsA

theorem mkId_inj : Function.Injective mkId := by
  intro i j h
  have hd : List.replicate i 'a' = List.replicate j 'a' := congrArg String.data h
  have := congrArg List.length hd
  simpa using this

/-- The 200 distinct source identifiers of `c3big`, in first-seen order. -/
def idsB : List String := (List.range 200).map mkId

/-- The 199 source identifiers contributing column "A". -/
def idsA : List String := (List.range 199).map mkId

theorem nodup_idsB : idsB.Nodup :=
  List.Nodup.map mkId_inj (List.nodup_range 200)

theorem nodup_idsA : idsA.Nodup :=
  List.Nodup.map mkId_inj (List.nodup_range 199)

theorem colsB_sourceIds : colsB.map (·.sourceId) = idsB := by
  rw [colsB, idsB, List.map_map]
  rfl

theorem colsA_sourceIds : colsA.map (·.sourceId) = idsA := by
  rw [colsA, idsA, List.map_map]
  rfl

theorem idsA_subset_idsB : ∀ x ∈ idsA, x ∈ idsB := by
  intro x hx
  rw [idsA] at hx
  obtain ⟨i, hi, rfl⟩ := List.mem_map.mp hx
  rw [idsB]
  exact List.mem_map.mpr ⟨i, List.mem_range.mpr (by
    have := List.mem_range.mp hi
    omega), rfl⟩

theorem c3big_uids : dedupFirst (c3big.map (·.sourceId)) = idsB := by
  rw [c3big, List.map_append, colsB_sourceIds, colsA_sourceIds,
      dedupFirst_append_absorbed idsA_subset_idsB, dedupFirst_of_nodup nodup_idsB]

theorem idsB_length : idsB.length = 200 := by simp [idsB]

theorem mkId_199_mem_idsB : mkId 199 ∈ idsB := by
  rw [idsB]
  exact List.mem_map.mpr ⟨199, List.mem_range.mpr (by omega), rfl⟩

theorem mkId_199_not_mem_idsA : mkId 199 ∉ idsA := by
  rw [idsA]
  intro hmem
  obtain ⟨i, hi, hEq⟩ := List.mem_map.mp hmem
  obtain rfl := mkId_inj hEq
  exact absurd (List.mem_range.mp hi) (by omega)

theorem colsB_keys : ∀ c ∈ colsB, groupKey c = "B" := by
  intro c hc
  obtain ⟨i, _, rfl⟩ := List.mem_map.mp hc
  rfl

theorem colsA_keys : ∀ c ∈ colsA, groupKey c = "A" := by
  intro c hc
  obtain ⟨i, _, rfl⟩ := List.mem_map.mp hc
  rfl

theorem c3big_groups : groupColumns c3big = [("B", colsB), ("A", colsA)] := by
  rw [c3big, groupColumns, List.foldl_append]
  rw [show colsB.foldl (fun acc col => insertGroup acc (groupKey col) col) [] =
      ([] : List (String × List SourceColumn)) ++ [("B", colsB)] from
    foldl_insertGroup_fresh_block "B" colsB colsB_keys (by simp [colsB]) []
      (by intro g hg; simp at hg)]
  simp only [List.nil_append]
  rw [foldl_insertGroup_fresh_block "A" colsA colsA_keys (by simp [colsA])
      [("B", colsB)]
      (by
        intro g hg
        simp only [List.mem_singleton] at hg
        subst hg
        simp)]
  rfl

/-! ## Main lemmas behind the claims -/

theorem foldl_normStep_get_last (row : JSObject) (l₁ l₂ : List UnionSchemaColumn)
    (c : UnionSchemaColumn) (h : c.displayName ∉ l₂.map (·.displayName))
    (acc : JSObject) :
    objGet ((l₁ ++ c :: l₂).foldl (normStep row) acc) c.displayName =
      coerceValue (resolveRaw row c) c.type :=
  foldl_objSet_get_last (fun x => coerceValue (resolveRaw row x) x.type) l₁ l₂ c h acc

theorem normalizeDataRow_get (row : JSObject) (schema : UnionSchema)
    (m : SourceMetadata) (c : UnionSchemaColumn) (hc : c ∈ schema.columns)
    (hnd : (schema.columns.map (·.displayName)).Nodup) :
    objGet (normalizeDataRow row schema m) c.displayName =
      coerceValue (resolveRaw row c) c.type := by
  obtain ⟨l₁, l₂, hsplit⟩ := List.append_of_mem hc
  have hnot : c.displayName ∉ l₂.map (·.displayName) := by
    rw [hsplit, List.map_append, List.map_cons] at hnd
    exact (List.nodup_cons.mp (List.Nodup.of_append_right hnd)).1
  rw [normalizeDataRow, hsplit]
  exact foldl_normStep_get_last row l₁ l₂ c hnot _

theorem coerceValue_null_of_absent (row : JSObject) (c : UnionSchemaColumn)
    (h1 : objGet row c.name = .undefined) (h2 : objGet row c.displayName = .undefined) :
    coerceValue (resolveRaw row c) c.type = .null := by
  rw [resolveRaw, h1, h2]
  rfl

theorem resolveRaw_of_truthy (row : JSObject) (c : UnionSchemaColumn)
    (h : truthy (objGet row c.name) = true) :
    resolveRaw row c = objGet row c.name := by
  rw [resolveRaw, jsOr, if_pos h]

theorem resolveRaw_of_falsy (row : JSObject) (c : UnionSchemaColumn)
    (h : truthy (objGet row c.name) = false) :
    resolveRaw row c = objGet row c.displayName := by
  rw [resolveRaw, jsOr, if_neg (by simp [h])]

theorem valStep_errors (acc : List String × List String) (c : UnionSchemaColumn) :
    (valStep acc c).2 =
      if c.required ∧ c.coverage < 100 then acc.2 ++ [requiredColumnError c]
      else acc.2 := rfl

theorem foldl_valStep_errors (cols : List UnionSchemaColumn) :
    ∀ acc : List String × List String,
      (cols.foldl valStep acc).2 =
        acc.2 ++ cols.filterMap (fun c =>
          if c.required ∧ c.coverage < 100 then some (requiredColumnError c)
          else none) := by
  induction cols with
  | nil => intro acc; simp
  | cons c cs ih =>
      intro acc
      rw [List.foldl_cons, ih, List.filterMap_cons]
      by_cases h : c.required ∧ c.coverage < 100
      · rw [if_pos h, valStep_errors, if_pos h]
        simp
      · rw [if_neg h, valStep_errors, if_neg h]

theorem validate_errors_eq (u : UnionSchema) :
    (validateColumnTypes u).2 =
      u.columns.filterMap (fun c =>
        if c.required ∧ c.coverage < 100 then some (requiredColumnError c)
        else none) := by
  rw [validateColumnTypes, foldl_valStep_errors]
  simp

theorem c8_main (sources : List SourceColumn) :
    (buildUnionSchema sources).coverageMatrix.matrix.length =
      (buildUnionSchema sources).totalColumns ∧
    ∀ row ∈ (buildUnionSchema sources).coverageMatrix.matrix,
      row.length = (buildUnionSchema sources).totalSources ∧
        ∃ b ∈ row, b = true := by
  constructor
  · rw [buildUnionSchema_matrix, buildUnionSchema_totalColumns,
        buildUnionSchema_columns, sortCmp_length, List.length_map,
        List.length_map]
  · intro row hrow
    rw [buildUnionSchema_matrix] at hrow
    obtain ⟨g, hg, hrowEq⟩ := List.mem_map.mp hrow
    obtain ⟨hne, hmem⟩ := groupColumns_inv sources g hg
    constructor
    · rw [← hrowEq, buildGroupEntry_snd, List.length_map,
          buildUnionSchema_totalSources]
    · obtain ⟨c₀, hc₀⟩ := List.exists_mem_of_ne_nil _ hne
      have hsid_swc : c₀.sourceId ∈ dedupFirst (g.2.map (·.sourceId)) :=
        mem_dedupFirst.mpr (List.mem_map_of_mem _ hc₀)
      have hsid_uids : c₀.sourceId ∈ dedupFirst (sources.map (·.sourceId)) :=
        mem_dedupFirst.mpr (List.mem_map_of_mem _ (hmem c₀ hc₀))
      refine ⟨true, ?_, rfl⟩
      rw [← hrowEq, buildGroupEntry_snd]
      exact List.mem_map.mpr ⟨c₀.sourceId, hsid_uids, by simp [hsid_swc]⟩

theorem c3_main (sources : List SourceColumn) (c : UnionSchemaColumn)
    (hc : c ∈ (buildUnionSchema sources).columns) :
    c.coverage ≤ 100 ∧
      (c.coverage = 100 ↔
        199 * (buildUnionSchema sources).totalSources ≤ 200 * c.sources.length) := by
  obtain ⟨g, hg, hcEq⟩ := mem_buildUnionSchema_columns.mp hc
  obtain ⟨hne, hmemS⟩ := groupColumns_inv sources g hg
  have hsrc : c.sources = dedupFirst (g.2.map (·.sourceId)) := by
    rw [← hcEq, buildGroupEntry_fst_sources]
  have hcov : c.coverage =
      coveragePct c.sources.length (dedupFirst (sources.map (·.sourceId))).length := by
    rw [hsrc, ← hcEq, buildGroupEntry_fst_coverage]
  have hsubset : c.sources ⊆ dedupFirst (sources.map (·.sourceId)) := by
    rw [hsrc]
    intro x hx
    obtain ⟨c₀, hc₀, rfl⟩ := List.mem_map.mp (mem_dedupFirst.mp hx)
    exact mem_dedupFirst.mpr (List.mem_map_of_mem _ (hmemS c₀ hc₀))
  have hnodup : c.sources.Nodup := by
    rw [hsrc]; exact nodup_dedupFirst _
  have hkn : c.sources.length ≤ (dedupFirst (sources.map (·.sourceId))).length :=
    (hnodup.subperm hsubset).length_le
  have hn : 0 < (dedupFirst (sources.map (·.sourceId))).length := by
    obtain ⟨c₀, hc₀⟩ := List.exists_mem_of_ne_nil _ hne
    have hmem' : c₀.sourceId ∈ dedupFirst (sources.map (·.sourceId)) :=
      mem_dedupFirst.mpr (List.mem_map_of_mem _ (hmemS c₀ hc₀))
    exact List.length_pos.mpr (List.ne_nil_of_mem hmem')
  rw [buildUnionSchema_totalSources, hcov]
  exact ⟨coveragePct_le_100 hn hkn, coveragePct_eq_100_iff hn hkn⟩

theorem c6_main (sources : List SourceColumn) :
    ((buildUnionSchema sources).columns).Pairwise
      (fun a b => b.coverage < a.coverage ∨
        (a.coverage = b.coverage ∧
          localeCompare a.displayName b.displayName ≤ 0)) := by
  rw [buildUnionSchema_columns]
  refine List.Pairwise.imp ?_ (sortCmp_pairwise cmpColumns_total cmpColumns_trans _)
  intro a b hab
  unfold cmpColumns at hab
  by_cases h : b.coverage = a.coverage
  · right
    refine ⟨h.symm, ?_⟩
    rwa [if_neg (by omega)] at hab
  · left
    rw [if_pos (by omega)] at hab
    omega

/-! ## Evaluation of `buildUnionSchema` on the 200-source input -/

theorem dedup_colsA : dedupFirst (colsA.map (·.sourceId)) = idsA := by
  rw [colsA_sourceIds, dedupFirst_of_nodup nodup_idsA]

theorem dedup_colsB : dedupFirst (colsB.map (·.sourceId)) = idsB := by
  rw [colsB_sourceIds, dedupFirst_of_nodup nodup_idsB]

/-- The union column built for group "A" of `c3big`. -/
def entryA : UnionSchemaColumn := (buildGroupEntry colsA 200 idsB).1

/-- The union column built for group "B" of `c3big`. -/
def entryB : UnionSchemaColumn := (buildGroupEntry colsB 200 idsB).1

theorem buildGroupEntry_fst_displayName (cols : List SourceColumn) (n : Nat)
    (uids : List String) :
    (buildGroupEntry cols n uids).1.displayName = cols.headI.displayName := rfl

theorem idsA_length : idsA.length = 199 := by simp [idsA]

theorem entryA_coverage : entryA.coverage = 100 := by
  rw [entryA, buildGroupEntry_fst_coverage, dedup_colsA, idsA_length]
  rfl

theorem entryB_coverage : entryB.coverage = 100 := by
  rw [entryB, buildGroupEntry_fst_coverage, dedup_colsB, idsB_length]
  rfl

theorem entryA_sources : entryA.sources = idsA := by
  rw [entryA, buildGroupEntry_fst_sources, dedup_colsA]

theorem colsA_headI : colsA.headI = mkCol "A" (mkId 0) := by
  rw [colsA, show (199 : Nat) = 198 + 1 from rfl, List.range_succ_eq_map]
  rfl

theorem colsB_headI : colsB.headI = mkCol "B" (mkId 0) := by
  rw [colsB, show (200 : Nat) = 199 + 1 from rfl, List.range_succ_eq_map]
  rfl

theorem entryA_displayName : entryA.displayName = "A" := by
  rw [entryA, buildGroupEntry_fst_displayName, colsA_headI]
  rfl

theorem entryB_displayName : entryB.displayName = "B" := by
  rw [entryB, buildGroupEntry_fst_displayName, colsB_headI]
  rfl

theorem c3_sorted : sortCmp cmpColumns [entryB, entryA] = [entryA, entryB] := by
  have hgt : ¬ cmpColumns entryB entryA ≤ 0 := by
    unfold cmpColumns
    rw [if_neg (by rw [entryA_coverage, entryB_coverage]; omega)]
    rw [entryB_displayName, entryA_displayName]
    decide
  simp [sortCmp, insertCmp, hgt]

theorem c3_columns : (buildUnionSchema c3big).columns = [entryA, entryB] := by
  rw [buildUnionSchema_columns, c3big_groups, c3big_uids, idsB_length]
  simp only [List.map_cons, List.map_nil]
  exact c3_sorted

/-! ## The claims -/

/-- Claim C1 (code bug): the spec requires `matrix[i][j]` to be true iff
source `j` contributes the column at position `i` of the FINAL (sorted)
column order, and the `CoverageMatrix` structure itself pairs `matrix` with
the sorted `columns` labels — but the code accumulates the matrix rows in
group-insertion order and never re-orders them when `unionColumns` is
sorted.  On `ex1`, the sorted column order is `["A", "B"]` and source "s2"
(index 1) contributes column "A" (index 0, `sources = ["s1", "s2"]`), yet
`matrix[0][1] = false` — row 0 is still the row of the group seen first
("B"). -/
theorem C1_matrix_not_aligned_with_sorted_columns :
    (buildUnionSchema ex1).coverageMatrix.columns = ["A", "B"] ∧
    (buildUnionSchema ex1).columns.map (fun c => (c.displayName, c.sources)) =
      [("A", ["s1", "s2"]), ("B", ["s1"])] ∧
    (buildUnionSchema ex1).coverageMatrix.matrix = [[true, false], [true, true]] :=
  ⟨by decide, by decide, by decide⟩

/-- Claim C2, counterexample: on a `Symbol` value with target type "number",
the coercion body throws (`Number(Symbol())` raises a `TypeError` — the
`ToNumber` operation throws on Symbols), the exception is caught — but
`coerceValue` returns the raw value unchanged, not `null` as the claim
states. -/
theorem C2_counterexample_sym_number :
    coerceValueTry (JSValue.sym 0) "number" = Except.error () ∧
    coerceValue (JSValue.sym 0) "number" = JSValue.sym 0 ∧
    JSValue.sym 0 ≠ JSValue.null :=
  ⟨rfl, rfl, by simp⟩

/-- Claim C2 as amended: for a raw value other than `null`/`undefined` (which
the guard maps to `null` before the `try`), if the type-specific coercion
body throws, `coerceValue` catches the exception locally and returns the
original raw value unchanged; no exception escapes (`coerceValue` is total
by construction). -/
theorem C2_amended_catch_returns_raw_value (v : JSValue) (t : String)
    (hv1 : isNull v = false) (hv2 : isUndefined v = false)
    (herr : coerceValueTry v t = Except.error ()) :
    coerceValue v t = v := by
  simp [coerceValue, hv1, hv2, herr]

/-- Witness for the amended C2 at the concrete throwing input
(`Number(Symbol())` throws). -/
theorem C2_amended_catch_returns_raw_value_witness :
    isNull (JSValue.sym 0) = false ∧ isUndefined (JSValue.sym 0) = false ∧
    coerceValueTry (JSValue.sym 0) "number" = Except.error () ∧
    coerceValue (JSValue.sym 0) "number" = JSValue.sym 0 :=
  ⟨rfl, rfl, rfl,
    C2_amended_catch_returns_raw_value (JSValue.sym 0) "number" rfl rfl rfl⟩

/-- Claim C3, counterexample: with 200 distinct sources of which 199
contribute column "A", `Math.round((199/200)*100) = Math.round(99.5) = 100`,
so the first sorted column ("A") reports `coverage = 100` although source
`mkId 199` (present in the schema's source list) does not contribute it —
the "coverage = 100 iff every distinct source contributed" direction fails. -/
theorem C3_counterexample_rounding_to_100 :
    (buildUnionSchema c3big).columns.headI.coverage = 100 ∧
    mkId 199 ∈ (buildUnionSchema c3big).coverageMatrix.sources ∧
    mkId 199 ∉ (buildUnionSchema c3big).columns.headI.sources := by
  refine ⟨?_, ?_, ?_⟩
  · rw [c3_columns]
    exact entryA_coverage
  · rw [buildUnionSchema_matrixSources, c3big_uids]
    exact mkId_199_mem_idsB
  · rw [c3_columns]
    intro hmem
    have hmem' : mkId 199 ∈ entryA.sources := hmem
    rw [entryA_sources] at hmem'
    exact mkId_199_not_mem_idsA hmem'

/-- Claim C3 as amended: for every input and every union column, `coverage`
is an integer in [0, 100], and `coverage = 100` iff at least 199/200ths of
the distinct sources contribute the column (`199·totalSources ≤
200·contributing`); full contribution always gives 100, and the converse
holds whenever `totalSources < 200`, but fails at the rounding boundary. -/
theorem C3_amended_coverage_bounds (sources : List SourceColumn)
    (c : UnionSchemaColumn) (hc : c ∈ (buildUnionSchema sources).columns) :
    c.coverage ≤ 100 ∧
      (c.coverage = 100 ↔
        199 * (buildUnionSchema sources).totalSources ≤ 200 * c.sources.length) :=
  c3_main sources c hc

/-- Witness for the amended C3 at a one-source input. -/
theorem C3_amended_coverage_bounds_witness :
    (buildUnionSchema c4cols).columns.headI.coverage ≤ 100 ∧
      ((buildUnionSchema c4cols).columns.headI.coverage = 100 ↔
        199 * (buildUnionSchema c4cols).totalSources ≤
          200 * (buildUnionSchema c4cols).columns.headI.sources.length) :=
  C3_amended_coverage_bounds c4cols _ (by decide)

/-- Claim C4, counterexample: the lookup `row[column.name] ||
row[column.displayName]` uses JavaScript `||`, which falls through on every
FALSY value, not only on absent keys.  Here the internal name "n" is present
with value `0` (which coerces to `0` under "number"), yet the emitted value
is the display-name value `5`. -/
theorem C4_counterexample_falsy_fallthrough :
    objGet [("n", JSValue.num 0), ("D", JSValue.num 5)] "n" = JSValue.num 0 ∧
    coerceValue (JSValue.num 0) "number" = JSValue.num 0 ∧
    objGet (normalizeDataRow [("n", JSValue.num 0), ("D", JSValue.num 5)]
      (buildUnionSchema c4cols) exMeta) "D" = JSValue.num 5 :=
  ⟨rfl, rfl, rfl⟩

/-- Claim C4 as amended: for pairwise-distinct display names, the emitted
value of a column uses the internal-name entry when it is TRUTHY, the
display-name entry otherwise (then coerced); when the record contains
neither key the emitted value is `null`. -/
theorem C4_amended_truthy_preference (row : JSObject) (schema : UnionSchema)
    (m : SourceMetadata) (c : UnionSchemaColumn) (hc : c ∈ schema.columns)
    (hnd : (schema.columns.map (·.displayName)).Nodup) :
    (truthy (objGet row c.name) = true →
      objGet (normalizeDataRow row schema m) c.displayName =
        coerceValue (objGet row c.name) c.type) ∧
    (truthy (objGet row c.name) = false →
      objGet (normalizeDataRow row schema m) c.displayName =
        coerceValue (objGet row c.displayName) c.type) ∧
    (objGet row c.name = .undefined → objGet row c.displayName = .undefined →
      objGet (normalizeDataRow row schema m) c.displayName = .null) := by
  have hget := normalizeDataRow_get row schema m c hc hnd
  refine ⟨?_, ?_, ?_⟩
  · intro h
    rw [hget, resolveRaw_of_truthy row c h]
  · intro h
    rw [hget, resolveRaw_of_falsy row c h]
  · intro h1 h2
    rw [hget, coerceValue_null_of_absent row c h1 h2]

/-- Witness for the amended C4 on a concrete one-column schema and record. -/
theorem C4_amended_truthy_preference_witness :
    ((buildUnionSchema c4cols).columns.headI ∈ (buildUnionSchema c4cols).columns) ∧
    (((buildUnionSchema c4cols).columns.map (·.displayName)).Nodup) ∧
    ((truthy (objGet [("n", JSValue.str "7")]
        (buildUnionSchema c4cols).columns.headI.name) = true →
      objGet (normalizeDataRow [("n", JSValue.str "7")]
          (buildUnionSchema c4cols) exMeta)
        (buildUnionSchema c4cols).columns.headI.displayName =
      coerceValue (objGet [("n", JSValue.str "7")]
          (buildUnionSchema c4cols).columns.headI.name)
        (buildUnionSchema c4cols).columns.headI.type) ∧
    (truthy (objGet [("n", JSValue.str "7")]
        (buildUnionSchema c4cols).columns.headI.name) = false →
      objGet (normalizeDataRow [("n", JSValue.str "7")]
          (buildUnionSchema c4cols) exMeta)
        (buildUnionSchema c4cols).columns.headI.displayName =
      coerceValue (objGet [("n", JSValue.str "7")]
          (buildUnionSchema c4cols).columns.headI.displayName)
        (buildUnionSchema c4cols).columns.headI.type) ∧
    (objGet [("n", JSValue.str "7")]
        (buildUnionSchema c4cols).columns.headI.name = .undefined →
      objGet [("n", JSValue.str "7")]
        (buildUnionSchema c4cols).columns.headI.displayName = .undefined →
      objGet (normalizeDataRow [("n", JSValue.str "7")]
          (buildUnionSchema c4cols) exMeta)
        (buildUnionSchema c4cols).columns.headI.displayName = .null)) :=
  ⟨by decide, by decide,
    C4_amended_truthy_preference [("n", JSValue.str "7")] (buildUnionSchema c4cols)
      exMeta _ (by decide) (by decide)⟩

/-- Claim C6, counterexample: the two columns of `ex6` have equal coverage,
and the code's `localeCompare` tie-break puts "a" before "B" (base letters
compare case-insensitively), while the claimed case-sensitive code-point
comparison orders "B" (U+0042) before "a" (U+0061). -/
theorem C6_counterexample_locale_order :
    (buildUnionSchema ex6).columns.map (·.displayName) = ["a", "B"] ∧
    (buildUnionSchema ex6).columns.map (·.coverage) = [100, 100] ∧
    ("B" : String).data = ['B'] ∧ ("a" : String).data = ['a'] ∧
    ('B' : Char) < 'a' :=
  ⟨by decide, by decide, rfl, rfl, by decide⟩

/-- Claim C6 as amended: the output columns are pairwise ordered by coverage
descending, ties broken by display name ascending under the default
locale-aware comparison `localeCompare` (case-insensitive on base letters,
lowercase before uppercase on a full primary tie) — not under code-point
comparison. -/
theorem C6_amended_sorted_by_locale (sources : List SourceColumn) :
    ((buildUnionSchema sources).columns).Pairwise
      (fun a b => b.coverage < a.coverage ∨
        (a.coverage = b.coverage ∧
          localeCompare a.displayName b.displayName ≤ 0)) :=
  c6_main sources

/-- Claim C7: `buildUnionSchema` never throws — in particular the only
unguarded partial operations of the loop body (`columns[0]` and the division
by `totalSources`) are safe because every group is created non-empty — and
the empty input yields the empty `UnionSchema`: no columns, zero sources,
zero columns, empty coverage matrix. -/
theorem C7_empty_input_and_totality :
    buildUnionSchema [] =
      { columns := [], totalSources := 0, totalColumns := 0,
        coverageMatrix := { columns := [], sources := [], matrix := [] } } ∧
    ∀ (sources : List SourceColumn) (g : String × List SourceColumn),
      g ∈ groupColumns sources → g.2 ≠ [] := by
  refine ⟨rfl, ?_⟩
  intro sources g hg
  exact (groupColumns_inv sources g hg).1

/-- Witness for C7 at a concrete one-column input. -/
theorem C7_empty_input_and_totality_witness :
    buildUnionSchema [] =
      { columns := [], totalSources := 0, totalColumns := 0,
        coverageMatrix := { columns := [], sources := [], matrix := [] } } ∧
    ("n", c4cols).2 ≠ [] :=
  ⟨C7_empty_input_and_totality.1,
    C7_empty_input_and_totality.2 c4cols ("n", c4cols) (by decide)⟩

/-- Claim C8: for every input, the coverage matrix has exactly
`totalColumns` rows, every row has exactly `totalSources` cells, and every
row contains at least one `true` cell (each group, hence each matrix row,
stems from at least one source column). -/
theorem C8_matrix_dimensions_and_rows (sources : List SourceColumn) :
    (buildUnionSchema sources).coverageMatrix.matrix.length =
      (buildUnionSchema sources).totalColumns ∧
    ∀ row ∈ (buildUnionSchema sources).coverageMatrix.matrix,
      row.length = (buildUnionSchema sources).totalSources ∧
        ∃ b ∈ row, b = true :=
  c8_main sources

/-- Witness for C8 at a concrete one-column input (the single matrix row is
`[true]`). -/
theorem C8_matrix_dimensions_and_rows_witness :
    (buildUnionSchema c4cols).coverageMatrix.matrix.length =
      (buildUnionSchema c4cols).totalColumns ∧
    ([true].length = (buildUnionSchema c4cols).totalSources ∧
      ∃ b ∈ [true], b = true) :=
  ⟨(C8_matrix_dimensions_and_rows c4cols).1,
    (C8_matrix_dimensions_and_rows c4cols).2 [true] (by decide)⟩

/-- Claim C9: the validation error list is exactly one entry per column with
`required = true` and `coverage < 100` (and validation, a pure function of
the schema, does not modify it); on the spec's two-source scenario, "Owner"
gets coverage 50 and exactly one error entry referencing "Owner". -/
theorem C9_required_coverage_errors :
    (∀ u : UnionSchema, (validateColumnTypes u).2 =
      u.columns.filterMap (fun c =>
        if c.required ∧ c.coverage < 100 then some (requiredColumnError c)
        else none)) ∧
    (buildUnionSchema c9input).columns.map
      (fun c => (c.displayName, c.coverage, c.required)) =
      [("Owner", 50, true), ("Title", 50, false)] ∧
    (validateColumnTypes (buildUnionSchema c9input)).2 =
      ["Required column \"Owner\" is missing from some sources (50% coverage)"] :=
  ⟨validate_errors_eq, by decide, by decide⟩

/-- Claim C10: `null` and `undefined` raw values coerce to `null` for every
target type (the guard runs before the type `switch`, so this holds for
"text" as well as for every other type string). -/
theorem C10_null_undefined_preserved (targetType : String) :
    coerceValue JSValue.null targetType = JSValue.null ∧
    coerceValue JSValue.undefined targetType = JSValue.null :=
  ⟨rfl, rfl⟩

/-- Witness for C10 at the "text" target type. -/
theorem C10_null_undefined_preserved_witness :
    coerceValue JSValue.null "text" = JSValue.null ∧
    coerceValue JSValue.undefined "text" = JSValue.null :=
  C10_null_undefined_preserved "text"
